import Mathlib

/-!
Shallow embedding of the reconciliation engine and rate limiter of
traefik-dns-rs (src/updater.rs, src/rate_limit.rs).

Machine integers are modelled as Nat with explicit wrap-around (% 2 ^ 64 for
u64, % 2 ^ 128 for u128) at the points where the Rust code casts or where an
atomic fetch_add may wrap.  Fallible calls return Except.  The external Router
and Provider capabilities are parameters: the Router call is an Except value,
the Provider is a record of three fallible state-passing operations.
-/

/-- src/router/mod.rs: `struct Route { id: String, host: String }`. -/
structure Route where
  id : String
  host : String
deriving DecidableEq

/-- src/updater.rs: `enum UpdateRoutesError { RouterError, ProviderError }`. -/
inductive UpdateRoutesError (ρ ε : Type) where
  | RouterError (e : ρ)
  | ProviderError (e : ε)
deriving DecidableEq

/-- src/dns/mod.rs: the `Provider` trait (list/create/delete).  The provider
is external state `σ` threaded through its fallible operations. -/
structure Provider (σ ε : Type) where
  create_record : σ → String → Except ε σ
  list_records : σ → Except ε (List String)
  delete_record : σ → String → Except ε σ

/-- Remote-call events of one reconciliation pass, in issue order. -/
inductive Event where
  | getRoutes
  | create (host : String)
  | listRecords
  | delete (host : String)
deriving DecidableEq

/-- src/updater.rs: `futures::future::try_join_all` over a batch of provider
calls on hostnames: every call in the batch is issued; the join fails if any
call fails.  State is threaded through the successful prefix. -/
def try_join_all {σ ε : Type} (f : σ → String → Except ε σ) :
    σ → List String → Except ε Unit × σ
  | s, [] => (Except.ok (), s)
  | s, d :: ds =>
    match f s d with
    | Except.error e => (Except.error e, s)
    | Except.ok s1 => try_join_all f s1 ds

/-- Result of one `update_routes` pass: the returned Result, the updater
field `current_routes` after the pass, the provider state after the pass, and
the trace of remote calls issued. -/
structure PassResult (σ ρ ε : Type) where
  result : Except (UpdateRoutesError ρ ε) Unit
  current_routes : Finset String
  prov : σ
  events : List Event

/-- src/updater.rs, `Updater::update_routes` (lines 54-95):
1. query the Router (`router` is the routes-or-error outcome of that call);
2. collect the hosts into a set `routes`;
3. create every host of `routes` not already in `current_routes`
   (HashSet iteration order is unspecified; the model iterates hosts in
   first-occurrence order, i.e. `List.dedup` of the host list);
4. list the records of the provider and filter those not in `routes`;
5. delete the filtered records;
6. only then overwrite `current_routes` with `routes`.
Any failure returns the error immediately, leaving `current_routes` as it
was. -/
def update_routes {σ ρ ε : Type} (P : Provider σ ε)
    (router : Except ρ (List Route)) (current_routes : Finset String) (s : σ) :
    PassResult σ ρ ε :=
  match router with
  | Except.error e =>
    ⟨Except.error (UpdateRoutesError.RouterError e), current_routes, s,
      [Event.getRoutes]⟩
  | Except.ok rs =>
    let routes : Finset String := (rs.map Route.host).toFinset
    let toCreate : List String :=
      (rs.map Route.host).dedup.filter (fun d => decide (d ∉ current_routes))
    match try_join_all P.create_record s toCreate with
    | (Except.error e, s1) =>
      ⟨Except.error (UpdateRoutesError.ProviderError e), current_routes, s1,
        Event.getRoutes :: toCreate.map Event.create⟩
    | (Except.ok _, s1) =>
      match P.list_records s1 with
      | Except.error e =>
        ⟨Except.error (UpdateRoutesError.ProviderError e), current_routes, s1,
          Event.getRoutes :: toCreate.map Event.create ++ [Event.listRecords]⟩
      | Except.ok existing =>
        let toDelete : List String :=
          existing.filter (fun d => decide (d ∉ routes))
        match try_join_all P.delete_record s1 toDelete with
        | (Except.error e, s2) =>
          ⟨Except.error (UpdateRoutesError.ProviderError e), current_routes, s2,
            Event.getRoutes :: toCreate.map Event.create ++
              Event.listRecords :: toDelete.map Event.delete⟩
        | (Except.ok _, s2) =>
          ⟨Except.ok (), routes, s2,
            Event.getRoutes :: toCreate.map Event.create ++
              Event.listRecords :: toDelete.map Event.delete⟩

/-- A functional model of an error-free DNS provider: its state is the list of
record hostnames; create appends a record, list returns the records, delete
removes every record for the host. -/
def modelProvider : Provider (List String) Unit :=
  ⟨fun s d => Except.ok (s ++ [d]),
   fun s => Except.ok s,
   fun s d => Except.ok (s.filter (fun x => decide (x ≠ d)))⟩

/-- An oracle provider whose list call answers with the fixed record set
given; create and delete always succeed and are tracked only as events. -/
def oracleProvider (existing : List String) : Provider Unit Unit :=
  ⟨fun s _ => Except.ok s,
   fun _ => Except.ok existing,
   fun s _ => Except.ok s⟩

/-- src/rate_limit.rs: `struct RateLimit`.  `capacity`, `period`, `used` and
`reset` are u64 values, `start` is the construction instant in nanoseconds
since the epoch (u128). -/
structure RateLimit where
  capacity : Nat
  period : Nat
  used : Nat
  start : Nat
  reset : Nat
deriving DecidableEq

/-- src/rate_limit.rs, `RateLimit::new` (lines 19-37): `used` starts at 0 and
the first reset instant is one period after `start`. -/
def RateLimit.new (num : Nat) (per : Nat) (startTime : Nat) : RateLimit :=
  ⟨num, per, 0, startTime, per⟩

/-- src/rate_limit.rs, `RateLimit::try_ready` (lines 39-60), with the call
instant `now` (nanoseconds since the epoch) made explicit.  `fetch_add` on a
u64 wraps, and `(now - self.start) as u64` truncates, hence the % 2 ^ 64. -/
def RateLimit.try_ready (rl : RateLimit) (now : Nat) : Bool × RateLimit :=
  if rl.used < rl.capacity then
    (true, ⟨rl.capacity, rl.period, (rl.used + 1) % 2 ^ 64, rl.start, rl.reset⟩)
  else
    if rl.reset < (now - rl.start) % 2 ^ 64 then
      (true, ⟨rl.capacity, rl.period, 1, rl.start,
        (rl.reset + rl.period) % 2 ^ 64⟩)
    else
      (false, rl)

/-- src/rate_limit.rs, `RateLimit::ready` (lines 62-74): the sleep duration is
computed as `(now - (self.start + reset as u128)) as u64`.  Release-profile
semantics: the u128 subtraction wraps, then the cast truncates to u64. -/
def RateLimit.wait_nanos (rl : RateLimit) (now : Nat) : Nat :=
  ((2 ^ 128 + now - (rl.start + rl.reset)) % 2 ^ 128) % 2 ^ 64

/-- The same sleep-duration expression under debug-profile semantics, where
an underflowing subtraction panics: `none` models the panic. -/
def RateLimit.wait_nanos_checked (rl : RateLimit) (now : Nat) : Option Nat :=
  if now < rl.start + rl.reset then none
  else some (now - (rl.start + rl.reset))

/-- Run a sequence of `try_ready` calls at the given instants; returns the
list of results and the final limiter state. -/
def RateLimit.run_try_ready (rl : RateLimit) : List Nat → List Bool × RateLimit
  | [] => ([], rl)
  | t :: ts =>
    let step := rl.try_ready t
    let rest := step.2.run_try_ready ts
    (step.1 :: rest.1, rest.2)

/-- The call instants of a run at which `try_ready` returned true. -/
def RateLimit.succ_times (rl : RateLimit) (ts : List Nat) : List Nat :=
  (ts.zip (rl.run_try_ready ts).1).filterMap
    (fun p => if p.2 then some p.1 else none)

/-- Whether a `try_ready` call at instant `t` takes the window-advancing
branch (all permits used and the reset instant passed). -/
def RateLimit.is_advance (rl : RateLimit) (t : Nat) : Bool :=
  !(decide (rl.used < rl.capacity)) &&
    decide (rl.reset < (t - rl.start) % 2 ^ 64)

/-- Number of window advances performed by a run of `try_ready` calls. -/
def RateLimit.count_advances (rl : RateLimit) : List Nat → Nat
  | [] => 0
  | t :: ts => (rl.is_advance t).toNat + (rl.try_ready t).2.count_advances ts

/-- Number of `true` results in a list of `try_ready` outcomes. -/
def count_true (bs : List Bool) : Nat := (bs.filter id).length

/-- Case analysis of one pass: either it returns ok and `current_routes` was
overwritten with the host set of the Router response, or it returns an
error and `current_routes` is untouched. -/
theorem update_routes_result_cases {σ ρ ε : Type} (P : Provider σ ε)
    (router : Except ρ (List Route)) (cur : Finset String) (s : σ) :
    ((update_routes P router cur s).result = Except.ok () ∧
       ∃ rs, router = Except.ok rs ∧
         (update_routes P router cur s).current_routes =
           (rs.map Route.host).toFinset) ∨
    ((∃ e, (update_routes P router cur s).result = Except.error e) ∧
       (update_routes P router cur s).current_routes = cur) := by
  cases router with
  | error e => exact Or.inr ⟨⟨_, rfl⟩, rfl⟩
  | ok rs =>
    unfold update_routes
    dsimp only
    split
    · exact Or.inr ⟨⟨_, rfl⟩, rfl⟩
    · split
      · exact Or.inr ⟨⟨_, rfl⟩, rfl⟩
      · split
        · exact Or.inr ⟨⟨_, rfl⟩, rfl⟩
        · exact Or.inl ⟨rfl, rs, rfl, rfl⟩

/-- C1: if the Router call fails or any create/list/delete call fails, the
pass returns an error and `current_routes` after the pass equals
`current_routes` before the pass. -/
theorem update_routes_error_preserves_state {σ ρ ε : Type} (P : Provider σ ε)
    (router : Except ρ (List Route)) (cur : Finset String) (s : σ)
    (e : UpdateRoutesError ρ ε)
    (h : (update_routes P router cur s).result = Except.error e) :
    (update_routes P router cur s).current_routes = cur := by
  rcases update_routes_result_cases P router cur s with ⟨hok, _⟩ | ⟨_, hcur⟩
  · rw [h] at hok
    cases hok
  · exact hcur

/-- Witness for C1: a pass whose Router call fails leaves the observed set
untouched. -/
theorem update_routes_error_preserves_state_witness :
    (update_routes modelProvider (Except.error ()) {"a.example.com"} []).current_routes
      = {"a.example.com"} :=
  update_routes_error_preserves_state modelProvider (Except.error ())
    {"a.example.com"} [] (UpdateRoutesError.RouterError ()) rfl

/-- C2: a successful pass overwrites `current_routes` with exactly the set of
hosts of the Route list the Router returned for that pass. -/
theorem update_routes_success_overwrites {σ ρ ε : Type} (P : Provider σ ε)
    (router : Except ρ (List Route)) (rs : List Route) (cur : Finset String)
    (s : σ) (hr : router = Except.ok rs)
    (h : (update_routes P router cur s).result = Except.ok ()) :
    (update_routes P router cur s).current_routes =
      (rs.map Route.host).toFinset := by
  rcases update_routes_result_cases P router cur s with
    ⟨_, rs2, hrs, hcur⟩ | ⟨⟨e, herr⟩, _⟩
  · rw [hr] at hrs
    injection hrs with hh
    subst hh
    exact hcur
  · rw [h] at herr
    cases herr

/-- Witness for C2: a successful concrete pass ends with observed state equal
to the host set of the Router. -/
theorem update_routes_success_overwrites_witness :
    (update_routes modelProvider
      (Except.ok [⟨"r1", "a.example.com"⟩] : Except Unit (List Route)) ∅ []).current_routes
      = ([⟨"r1", "a.example.com"⟩].map Route.host).toFinset :=
  update_routes_success_overwrites modelProvider
    (Except.ok [⟨"r1", "a.example.com"⟩]) [⟨"r1", "a.example.com"⟩] ∅ []
    rfl rfl

/-- The event trace of every pass has one of two shapes: the Router query
followed by create events, or the Router query, create events, the
listRecords query, then delete events. -/
theorem update_routes_events_shape {σ ρ ε : Type} (P : Provider σ ε)
    (router : Except ρ (List Route)) (cur : Finset String) (s : σ) :
    ∃ tc td : List String,
      ((update_routes P router cur s).events =
         Event.getRoutes :: tc.map Event.create ∨
       (update_routes P router cur s).events =
         Event.getRoutes :: tc.map Event.create ++
           Event.listRecords :: td.map Event.delete) := by
  cases router with
  | error e => exact ⟨[], [], Or.inl rfl⟩
  | ok rs =>
    unfold update_routes
    dsimp only
    split
    · exact ⟨_, [], Or.inl rfl⟩
    · split
      · exact ⟨_, [], Or.inr rfl⟩
      · split
        · exact ⟨_, _, Or.inr rfl⟩
        · exact ⟨_, _, Or.inr rfl⟩

/-- Every element of a mapped create-event list is a create event. -/
theorem mem_map_create (l : List String) :
    ∀ e ∈ l.map Event.create, ∃ h, e = Event.create h := by
  intro e he
  rcases List.mem_map.mp he with ⟨d, _, hd⟩
  exact ⟨d, hd.symm⟩

/-- Every element of a mapped delete-event list is a delete event. -/
theorem mem_map_delete (l : List String) :
    ∀ e ∈ l.map Event.delete, ∃ h, e = Event.delete h := by
  intro e he
  rcases List.mem_map.mp he with ⟨d, _, hd⟩
  exact ⟨d, hd.symm⟩

/-- C9: in every pass the Router query comes first, all create calls precede
any listRecords query, and all delete calls come after the listRecords query
(hence after every create of the pass). -/
theorem update_routes_creates_before_deletes {σ ρ ε : Type} (P : Provider σ ε)
    (router : Except ρ (List Route)) (cur : Finset String) (s : σ) :
    ∃ cs ds : List Event,
      (∀ e ∈ cs, ∃ h, e = Event.create h) ∧
      (∀ e ∈ ds, ∃ h, e = Event.delete h) ∧
      ((update_routes P router cur s).events = Event.getRoutes :: cs ∨
       (update_routes P router cur s).events =
         Event.getRoutes :: cs ++ Event.listRecords :: ds) := by
  obtain ⟨tc, td, h | h⟩ := update_routes_events_shape P router cur s
  · exact ⟨tc.map Event.create, [], mem_map_create tc, by simp, Or.inl h⟩
  · exact ⟨tc.map Event.create, td.map Event.delete, mem_map_create tc,
      mem_map_delete td, Or.inr h⟩

/-- A Router whose query succeeds with the given route list (used to run the
reconciliation pass against the functional model provider). -/
def modelRouter (rs : List Route) : Except Unit (List Route) :=
  Except.ok rs

/-- `try_join_all` over an operation that never fails succeeds and folds the
operation over the batch. -/
theorem try_join_all_of_ok {σ ε : Type} (f : σ → String → σ) (s : σ)
    (ds : List String) :
    try_join_all (fun a d => (Except.ok (f a d) : Except ε σ)) s ds =
      (Except.ok (), ds.foldl f s) := by
  induction ds generalizing s with
  | nil => rfl
  | cons d ds ih =>
    simp only [try_join_all, List.foldl_cons]
    exact ih (f s d)

/-- Membership after folding record deletions over a batch: an element
survives iff it was present and is not among the deleted hosts. -/
theorem mem_foldl_filter_ne (x : String) (ds : List String) (s : List String) :
    x ∈ ds.foldl (fun a d => a.filter (fun y => decide (y ≠ d))) s ↔
      x ∈ s ∧ x ∉ ds := by
  induction ds generalizing s with
  | nil => simp
  | cons d ds ih =>
    rw [List.foldl_cons, ih]
    simp only [List.mem_filter, List.mem_cons, decide_eq_true_eq, not_or]
    tauto

/-- A pass against the functional model provider always succeeds, and every
record left in the provider afterwards is a desired host of that pass. -/
theorem update_routes_model_run (rs : List Route) (cur : Finset String)
    (s : List String) :
    (update_routes modelProvider (modelRouter rs) cur s).result = Except.ok () ∧
      ∀ x ∈ (update_routes modelProvider (modelRouter rs) cur s).prov,
        x ∈ (rs.map Route.host).toFinset := by
  unfold update_routes modelRouter
  dsimp only [modelProvider]
  simp only [try_join_all_of_ok]
  refine ⟨by trivial, ?_⟩
  intro x hx
  rw [mem_foldl_filter_ne] at hx
  obtain ⟨hx1, hx2⟩ := hx
  by_contra hnot
  exact hx2 (List.mem_filter.mpr ⟨hx1, by simpa using hnot⟩)

/-- A pass whose desired hosts are all already observed and whose provider
records are all desired is a pure read: one Router query, one list query. -/
theorem update_routes_model_pure_read (rs : List Route) (cur : Finset String)
    (s : List String)
    (hc : ∀ x ∈ rs.map Route.host, x ∈ cur)
    (hs : ∀ x ∈ s, x ∈ (rs.map Route.host).toFinset) :
    (update_routes modelProvider (modelRouter rs) cur s).events =
      [Event.getRoutes, Event.listRecords] := by
  have h1 : (rs.map Route.host).dedup.filter (fun d => decide (d ∉ cur)) = [] :=
    List.filter_eq_nil_iff.mpr
      (by intro a ha; simpa using hc a (List.mem_dedup.mp ha))
  have h2 : s.filter (fun d => decide (d ∉ (rs.map Route.host).toFinset)) = [] :=
    List.filter_eq_nil_iff.mpr (by intro a ha; simpa using hs a ha)
  unfold update_routes modelRouter
  dsimp only [modelProvider]
  rw [h1]
  dsimp only [try_join_all]
  rw [h2]
  rfl

/-- C7: with the functional model provider, running the pass a second time on
the state the first pass left behind (same Router answer, provider unchanged
in between) performs exactly one Router query and one list query — zero
create calls and zero delete calls. -/
theorem update_routes_idempotent (rs : List Route) (cur : Finset String)
    (s : List String) :
    (update_routes modelProvider (modelRouter rs)
        (update_routes modelProvider (modelRouter rs) cur s).current_routes
        (update_routes modelProvider (modelRouter rs) cur s).prov).events =
      [Event.getRoutes, Event.listRecords] := by
  obtain ⟨hok, hprov⟩ := update_routes_model_run rs cur s
  have hcur : (update_routes modelProvider (modelRouter rs) cur s).current_routes
      = (rs.map Route.host).toFinset := by
    rcases update_routes_result_cases modelProvider (modelRouter rs) cur s with
      ⟨_, rs2, hrs, hc⟩ | ⟨⟨e, herr⟩, _⟩
    · have hh : rs = rs2 := by simpa [modelRouter] using hrs
      subst hh
      exact hc
    · rw [hok] at herr
      cases herr
  rw [hcur]
  exact update_routes_model_pure_read rs _ _
    (fun x hx => by simpa [List.mem_toFinset] using hx) hprov

/-- Counterexample to C8: in a pass where the desired set is exactly a and b
and the provider lists exactly b and c, the pass does NOT necessarily create
exactly a: started with an empty observed set, it issues creates for both a
and b (creates are diffed against the observed set, not against the
records of the provider). -/
theorem update_routes_diff_counterexample :
    (update_routes (oracleProvider ["b", "c"])
        (Except.ok [⟨"r1", "a"⟩, ⟨"r2", "b"⟩] : Except Unit (List Route))
        ∅ ()).events =
      [Event.getRoutes, Event.create "a", Event.create "b",
        Event.listRecords, Event.delete "c"] ∧
    Event.create "b" ∈ (update_routes (oracleProvider ["b", "c"])
        (Except.ok [⟨"r1", "a"⟩, ⟨"r2", "b"⟩] : Except Unit (List Route))
        ∅ ()).events := by
  refine ⟨by decide, by decide⟩

/-- C8 (amended): in a pass where the desired set is exactly a and b, the
provider lists exactly b and c, and the observed set already contains b but
not a, the pass creates exactly a and deletes exactly c. -/
theorem update_routes_diff_correct (cur : Finset String)
    (hb : "b" ∈ cur) (ha : "a" ∉ cur) :
    (update_routes (oracleProvider ["b", "c"])
        (Except.ok [⟨"r1", "a"⟩, ⟨"r2", "b"⟩] : Except Unit (List Route))
        cur ()).events =
      [Event.getRoutes, Event.create "a", Event.listRecords,
        Event.delete "c"] := by
  have hd : (List.map Route.host
      [(⟨"r1", "a"⟩ : Route), ⟨"r2", "b"⟩]).dedup = ["a", "b"] := by decide
  have h1 : (List.map Route.host
      [(⟨"r1", "a"⟩ : Route), ⟨"r2", "b"⟩]).dedup.filter
        (fun d => decide (d ∉ cur)) = ["a"] := by
    rw [hd]
    simp [List.filter_cons, ha, hb]
  have h2 : (["b", "c"] : List String).filter
      (fun d => decide (d ∉ (List.map Route.host
        [(⟨"r1", "a"⟩ : Route), ⟨"r2", "b"⟩]).toFinset)) = ["c"] := by decide
  unfold update_routes
  dsimp only [oracleProvider]
  rw [h1]
  dsimp only [try_join_all]
  rw [h2]
  rfl

/-- Witness for the amended C8 at the concrete observed set containing b
only. -/
theorem update_routes_diff_correct_witness :
    (update_routes (oracleProvider ["b", "c"])
        (Except.ok [⟨"r1", "a"⟩, ⟨"r2", "b"⟩] : Except Unit (List Route))
        {"b"} ()).events =
      [Event.getRoutes, Event.create "a", Event.listRecords,
        Event.delete "c"] :=
  update_routes_diff_correct {"b"} (by decide) (by decide)

/-- C6: a `try_ready` call that finds all permits used and the reset instant
passed advances the reset instant by exactly one period (reset + period, not
now + period), counts itself as the first permit of the new window (used = 1)
and returns true. -/
theorem try_ready_advances_window (rl : RateLimit) (now : Nat)
    (h1 : rl.capacity ≤ rl.used)
    (h2 : rl.reset < (now - rl.start) % 2 ^ 64)
    (h3 : rl.reset + rl.period < 2 ^ 64) :
    rl.try_ready now =
      (true, ⟨rl.capacity, rl.period, 1, rl.start, rl.reset + rl.period⟩) := by
  unfold RateLimit.try_ready
  rw [if_neg (by omega), if_pos h2, Nat.mod_eq_of_lt h3]

/-- Witness for C6: a limiter of capacity 2 and period 10 started at 0, with
both permits used, called at instant 15, advances the window to reset 20 and
admits the call as the first permit of the new window. -/
theorem try_ready_advances_window_witness :
    RateLimit.try_ready ⟨2, 10, 2, 0, 10⟩ 15 = (true, ⟨2, 10, 1, 0, 20⟩) :=
  try_ready_advances_window ⟨2, 10, 2, 0, 10⟩ 15 (by decide) (by decide)
    (by decide)

/-- C10: whenever used < capacity, `try_ready` admits the call and increments
`used` without consulting the clock (the result is the same at every call
instant), and `used` only ever decreases on a call that finds
used >= capacity with the elapsed time past the reset instant. -/
theorem try_ready_counts_only_permits (rl : RateLimit) (now now2 : Nat)
    (hcap : rl.capacity < 2 ^ 64) :
    (rl.used < rl.capacity →
        rl.try_ready now =
          (true, ⟨rl.capacity, rl.period, rl.used + 1, rl.start, rl.reset⟩) ∧
        rl.try_ready now = rl.try_ready now2) ∧
    ((rl.try_ready now).2.used < rl.used →
        rl.capacity ≤ rl.used ∧ rl.reset < (now - rl.start) % 2 ^ 64) := by
  constructor
  · intro h
    have hmod : (rl.used + 1) % 2 ^ 64 = rl.used + 1 := Nat.mod_eq_of_lt (by omega)
    unfold RateLimit.try_ready
    rw [if_pos h, if_pos h, hmod]
    exact ⟨rfl, rfl⟩
  · intro h
    by_cases h1 : rl.used < rl.capacity
    · exfalso
      have hmod : (rl.used + 1) % 2 ^ 64 = rl.used + 1 :=
        Nat.mod_eq_of_lt (by omega)
      simp only [RateLimit.try_ready, if_pos h1, hmod] at h
      omega
    · by_cases h2 : rl.reset < (now - rl.start) % 2 ^ 64
      · exact ⟨Nat.le_of_not_lt h1, h2⟩
      · exfalso
        simp only [RateLimit.try_ready, if_neg h1, if_neg h2] at h
        omega

/-- Witness for C10 at a limiter with capacity 3 and one permit used: the
call admits and increments at instants 0 and 99 alike. -/
theorem try_ready_counts_only_permits_witness :
    ((1 : Nat) < 3 →
        RateLimit.try_ready ⟨3, 10, 1, 0, 10⟩ 0 = (true, ⟨3, 10, 2, 0, 10⟩) ∧
        RateLimit.try_ready ⟨3, 10, 1, 0, 10⟩ 0 =
          RateLimit.try_ready ⟨3, 10, 1, 0, 10⟩ 99) ∧
    ((RateLimit.try_ready ⟨3, 10, 1, 0, 10⟩ 0).2.used < 1 →
        3 ≤ 1 ∧ 10 < (0 - 0) % 2 ^ 64) :=
  try_ready_counts_only_permits ⟨3, 10, 1, 0, 10⟩ 0 99 (by decide)

/-- C4 is violated by the code: when `try_ready` fails at instant `now`, the
remaining time until the next reset is (start + reset) - now, but `ready`
computes now - (start + reset), which underflows.  At the concrete input the
remaining time is 6 ns; the expression in the code panics under the debug profile
and yields 2 ^ 64 - 6 ns under the release profile. -/
theorem ready_wait_time_reversed :
    (RateLimit.try_ready ⟨1, 10, 1, 0, 10⟩ 4).1 = false ∧
    (⟨1, 10, 1, 0, 10⟩ : RateLimit).start +
        (⟨1, 10, 1, 0, 10⟩ : RateLimit).reset - 4 = 6 ∧
    RateLimit.wait_nanos_checked ⟨1, 10, 1, 0, 10⟩ 4 = none ∧
    RateLimit.wait_nanos ⟨1, 10, 1, 0, 10⟩ 4 = 2 ^ 64 - 6 :=
  ⟨by decide, by decide, by decide, by decide⟩

/-- C5 is violated by the code: a `ready` call that observes `try_ready` fail
does not promptly complete — the sleep-duration expression underflows, which
panics under the debug profile (`none`), and under the release profile makes
the call sleep more than 1.8 * 10 ^ 19 ns (over five centuries) although the
true remaining time is below one period (one second here). -/
theorem ready_sleep_overflow :
    (RateLimit.try_ready ⟨2, 1000000000, 2, 0, 1000000000⟩ 1).1 = false ∧
    RateLimit.wait_nanos_checked ⟨2, 1000000000, 2, 0, 1000000000⟩ 1 = none ∧
    (⟨2, 1000000000, 2, 0, 1000000000⟩ : RateLimit).start +
        (⟨2, 1000000000, 2, 0, 1000000000⟩ : RateLimit).reset - 1 <
      (⟨2, 1000000000, 2, 0, 1000000000⟩ : RateLimit).period ∧
    18000000000000000000 <
      RateLimit.wait_nanos ⟨2, 1000000000, 2, 0, 1000000000⟩ 1 :=
  ⟨by decide, by decide, by decide, by decide⟩

/-- One step of a `try_ready` run unfolded. -/
theorem run_try_ready_cons (rl : RateLimit) (t : Nat) (ts : List Nat) :
    rl.run_try_ready (t :: ts) =
      ((rl.try_ready t).1 :: ((rl.try_ready t).2.run_try_ready ts).1,
        ((rl.try_ready t).2.run_try_ready ts).2) :=
  rfl

/-- One step of the advance count unfolded. -/
theorem count_advances_cons (rl : RateLimit) (t : Nat) (ts : List Nat) :
    rl.count_advances (t :: ts) =
      (rl.is_advance t).toNat + (rl.try_ready t).2.count_advances ts :=
  rfl

/-- Counting trues over a cons. -/
theorem count_true_cons (b : Bool) (bs : List Bool) :
    count_true (b :: bs) = b.toNat + count_true bs := by
  cases b <;> simp [count_true, Nat.add_comm]

/-- Accounting invariant of a run: the admitted calls plus the capacity left
unused at the end are bounded by the capacity initially unused plus capacity
times the number of window advances. -/
theorem run_try_ready_bound (ts : List Nat) : ∀ rl : RateLimit,
    1 ≤ rl.capacity → rl.capacity < 2 ^ 64 → rl.used ≤ rl.capacity →
    count_true (rl.run_try_ready ts).1 +
        (rl.capacity - (rl.run_try_ready ts).2.used) ≤
      (rl.capacity - rl.used) + rl.capacity * rl.count_advances ts := by
  induction ts with
  | nil =>
    intro rl h1 h2 h3
    simp only [RateLimit.run_try_ready, RateLimit.count_advances]
    simp [count_true]
  | cons t ts ih =>
    intro rl h1 h2 h3
    rw [run_try_ready_cons, count_advances_cons, count_true_cons]
    by_cases hb : rl.used < rl.capacity
    · have hstep : rl.try_ready t =
          (true, ⟨rl.capacity, rl.period, rl.used + 1, rl.start, rl.reset⟩) := by
        unfold RateLimit.try_ready
        rw [if_pos hb, Nat.mod_eq_of_lt (by omega)]
      have hadv : rl.is_advance t = false := by
        unfold RateLimit.is_advance
        rw [decide_eq_true hb]
        rfl
      rw [hstep, hadv]
      show 1 + count_true
            ((⟨rl.capacity, rl.period, rl.used + 1, rl.start,
              rl.reset⟩ : RateLimit).run_try_ready ts).1 +
          (rl.capacity - ((⟨rl.capacity, rl.period, rl.used + 1, rl.start,
              rl.reset⟩ : RateLimit).run_try_ready ts).2.used) ≤
        (rl.capacity - rl.used) +
          rl.capacity * (0 + (⟨rl.capacity, rl.period, rl.used + 1, rl.start,
            rl.reset⟩ : RateLimit).count_advances ts)
      have hrec : count_true
            ((⟨rl.capacity, rl.period, rl.used + 1, rl.start,
              rl.reset⟩ : RateLimit).run_try_ready ts).1 +
          (rl.capacity - ((⟨rl.capacity, rl.period, rl.used + 1, rl.start,
              rl.reset⟩ : RateLimit).run_try_ready ts).2.used) ≤
        (rl.capacity - (rl.used + 1)) +
          rl.capacity * (⟨rl.capacity, rl.period, rl.used + 1, rl.start,
            rl.reset⟩ : RateLimit).count_advances ts :=
        ih ⟨rl.capacity, rl.period, rl.used + 1, rl.start, rl.reset⟩
          h1 h2 (by simpa using hb)
      have h0 : rl.capacity *
            (0 + (⟨rl.capacity, rl.period, rl.used + 1, rl.start,
              rl.reset⟩ : RateLimit).count_advances ts) =
          rl.capacity * (⟨rl.capacity, rl.period, rl.used + 1, rl.start,
            rl.reset⟩ : RateLimit).count_advances ts := by
        ring
      omega
    · by_cases hc : rl.reset < (t - rl.start) % 2 ^ 64
      · have hstep : rl.try_ready t =
            (true, ⟨rl.capacity, rl.period, 1, rl.start,
              (rl.reset + rl.period) % 2 ^ 64⟩) := by
          unfold RateLimit.try_ready
          rw [if_neg hb, if_pos hc]
        have hadv : rl.is_advance t = true := by
          unfold RateLimit.is_advance
          rw [decide_eq_false hb, decide_eq_true hc]
          rfl
        rw [hstep, hadv]
        show 1 + count_true
              ((⟨rl.capacity, rl.period, 1, rl.start,
                (rl.reset + rl.period) % 2 ^ 64⟩ : RateLimit).run_try_ready ts).1 +
            (rl.capacity - ((⟨rl.capacity, rl.period, 1, rl.start,
                (rl.reset + rl.period) % 2 ^ 64⟩ : RateLimit).run_try_ready ts).2.used) ≤
          (rl.capacity - rl.used) +
            rl.capacity * (1 + (⟨rl.capacity, rl.period, 1, rl.start,
              (rl.reset + rl.period) % 2 ^ 64⟩ : RateLimit).count_advances ts)
        have hrec : count_true
              ((⟨rl.capacity, rl.period, 1, rl.start,
                (rl.reset + rl.period) % 2 ^ 64⟩ : RateLimit).run_try_ready ts).1 +
            (rl.capacity - ((⟨rl.capacity, rl.period, 1, rl.start,
                (rl.reset + rl.period) % 2 ^ 64⟩ : RateLimit).run_try_ready ts).2.used) ≤
          (rl.capacity - 1) +
            rl.capacity * (⟨rl.capacity, rl.period, 1, rl.start,
              (rl.reset + rl.period) % 2 ^ 64⟩ : RateLimit).count_advances ts :=
          ih ⟨rl.capacity, rl.period, 1, rl.start,
            (rl.reset + rl.period) % 2 ^ 64⟩ h1 h2 (by simpa using h1)
        have hmul : rl.capacity *
              (1 + (⟨rl.capacity, rl.period, 1, rl.start,
                (rl.reset + rl.period) % 2 ^ 64⟩ : RateLimit).count_advances ts) =
            rl.capacity +
              rl.capacity * (⟨rl.capacity, rl.period, 1, rl.start,
                (rl.reset + rl.period) % 2 ^ 64⟩ : RateLimit).count_advances ts := by
          ring
        omega
      · have hstep : rl.try_ready t = (false, rl) := by
          unfold RateLimit.try_ready
          rw [if_neg hb, if_neg hc]
        have hadv : rl.is_advance t = false := by
          unfold RateLimit.is_advance
          rw [decide_eq_false hb, decide_eq_false hc]
          rfl
        rw [hstep, hadv]
        show 0 + count_true (rl.run_try_ready ts).1 +
            (rl.capacity - (rl.run_try_ready ts).2.used) ≤
          (rl.capacity - rl.used) +
            rl.capacity * (0 + rl.count_advances ts)
        have hrec := ih rl h1 h2 h3
        have h0 : rl.capacity * (0 + rl.count_advances ts) =
            rl.capacity * rl.count_advances ts := by
          ring
        omega

/-- Counterexample to C3: a limiter with capacity 2 and period 10 started at
instant 0, driven by try_ready calls at instants 0, 15, 16, 17, admits the
calls at 15, 16 and 17 — three successes inside the single window
[start + 1 * period, start + 2 * period) = [10, 20), exceeding the capacity
2: an unused permit carries over the boundary, and the call at 16 advances
the window and is admitted on top of it. -/
theorem rate_limit_window_bound_counterexample :
    (RateLimit.new 2 10 0).capacity = 2 ∧
    (RateLimit.new 2 10 0).succ_times [0, 15, 16, 17] = [0, 15, 16, 17] ∧
    ((RateLimit.new 2 10 0).succ_times [0, 15, 16, 17]).filter
        (fun t => decide (0 + 1 * 10 ≤ t) && decide (t < 0 + 2 * 10)) =
      [15, 16, 17] :=
  ⟨by decide, by decide, by decide⟩

/-- C3 (amended): for a limiter with capacity N >= 1 and period P, the number
of admitted try_ready calls in any call sequence is at most N times (1 + the
number of window advances performed); the per-window form of the bound fails
because unused permits carry over a window boundary and a lagging reset
instant can advance several times within one window. -/
theorem rate_limit_success_bound (N P startTime : Nat) (ts : List Nat)
    (h1 : 1 ≤ N) (h2 : N < 2 ^ 64) :
    count_true ((RateLimit.new N P startTime).run_try_ready ts).1 ≤
      N * ((RateLimit.new N P startTime).count_advances ts + 1) := by
  have h := run_try_ready_bound ts (RateLimit.new N P startTime) h1 h2
    (Nat.zero_le N)
  have hmul : N * ((RateLimit.new N P startTime).count_advances ts + 1) =
      N * (RateLimit.new N P startTime).count_advances ts + N := by
    ring
  have hcap : (RateLimit.new N P startTime).capacity = N := rfl
  have hused : (RateLimit.new N P startTime).used = 0 := rfl
  rw [hcap, hused] at h
  omega

/-- Witness for the amended C3 at the counterexample run: 4 of 4 calls are
admitted, and the bound 2 * (1 + 1) = 4 holds. -/
theorem rate_limit_success_bound_witness :
    count_true ((RateLimit.new 2 10 0).run_try_ready [0, 15, 16, 17]).1 ≤
      2 * ((RateLimit.new 2 10 0).count_advances [0, 15, 16, 17] + 1) :=
  rate_limit_success_bound 2 10 0 [0, 15, 16, 17] (by decide) (by decide)
